import Mathlib

/-!
Verification of the `preflight` review tool's core extraction and
navigation logic, shallowly embedded from the Python sources
(`src/preflight/main.py`, `src/preflight/ai_reviewer.py`,
`src/preflight/issue_display.py`, `src/preflight/display_utils.py`).

JSON values decoded by Python's `json.loads` are modelled by the `Json`
inductive below, with `loadsL` an executable recursive-descent decoder
mirroring the standard decoder on the JSON fragment the tool exercises
(objects, arrays, strings with common escapes, integer numerals,
booleans, null, whitespace).  Fractional/exponent numerals, the
NaN/Infinity extensions and surrogate-pair `\uXXXX` joining are outside
the model; no claim below depends on them.
-/

namespace Preflight

/-- A decoded JSON value (the result of Python's `json.loads`).  Objects
keep their key/value pairs in insertion order with distinct keys, as a
Python `dict` does. -/
inductive Json where
  | null : Json
  | bool (b : Bool) : Json
  | num (n : Int) : Json
  | str (s : String) : Json
  | arr (items : List Json) : Json
  | obj (kvs : List (String × Json)) : Json
deriving Repr

/-- Python `dict` lookup `d[k]` on the association-list model (first hit;
parsed objects never carry duplicate keys). -/
def lookupKey (kvs : List (String × Json)) (k : String) : Option Json :=
  (kvs.find? (fun p => p.1 == k)).map (fun p => p.2)

/-- Python `dict` insertion `d[k] = v`: overwrite in place when the key is
present, append otherwise (insertion order preserved, keys stay distinct). -/
def insertKey (kvs : List (String × Json)) (k : String) (v : Json) :
    List (String × Json) :=
  if kvs.any (fun p => p.1 == k) then
    kvs.map (fun p => if p.1 == k then (k, v) else p)
  else
    kvs ++ [(k, v)]

/-- JSON whitespace accepted between tokens by `json.loads`. -/
def isJsonWs (c : Char) : Bool :=
  c = ' ' || c = '\t' || c = '\n' || c = '\r'

/-- Drop leading JSON whitespace. -/
def skipWs : List Char → List Char
  | [] => []
  | c :: cs => if isJsonWs c then skipWs cs else c :: cs

/-- One hexadecimal digit of a `\uXXXX` escape. -/
def hexVal (c : Char) : Option Nat :=
  if '0' ≤ c ∧ c ≤ '9' then some (c.toNat - '0'.toNat)
  else if 'a' ≤ c ∧ c ≤ 'f' then some (c.toNat - 'a'.toNat + 10)
  else if 'A' ≤ c ∧ c ≤ 'F' then some (c.toNat - 'A'.toNat + 10)
  else none

/-- Body of a JSON string literal, after the opening quote: returns the
decoded characters and the input following the closing quote.  Raw control
characters are rejected (the decoder's strict mode). -/
def parseStringBody : List Char → Option (List Char × List Char)
  | [] => none
  | '"' :: rest => some ([], rest)
  | '\\' :: esc :: rest =>
    match esc with
    | '"' => (parseStringBody rest).map (fun p => ('"' :: p.1, p.2))
    | '\\' => (parseStringBody rest).map (fun p => ('\\' :: p.1, p.2))
    | '/' => (parseStringBody rest).map (fun p => ('/' :: p.1, p.2))
    | 'b' => (parseStringBody rest).map (fun p => ('\x08' :: p.1, p.2))
    | 'f' => (parseStringBody rest).map (fun p => ('\x0c' :: p.1, p.2))
    | 'n' => (parseStringBody rest).map (fun p => ('\n' :: p.1, p.2))
    | 'r' => (parseStringBody rest).map (fun p => ('\r' :: p.1, p.2))
    | 't' => (parseStringBody rest).map (fun p => ('\t' :: p.1, p.2))
    | 'u' =>
      match rest with
      | a :: b :: c :: d :: rest' =>
        match hexVal a, hexVal b, hexVal c, hexVal d with
        | some ha, some hb, some hc, some hd =>
          (parseStringBody rest').map
            (fun p => (Char.ofNat (((ha * 16 + hb) * 16 + hc) * 16 + hd) :: p.1, p.2))
        | _, _, _, _ => none
      | _ => none
    | _ => none
  | c :: rest =>
    if c.toNat < 32 then none
    else (parseStringBody rest).map (fun p => (c :: p.1, p.2))

/-- Numeric value of a digit run. -/
def digitsVal (ds : List Char) : Nat :=
  ds.foldl (fun n c => n * 10 + (c.toNat - '0'.toNat)) 0

/-- A JSON integer numeral: optional minus sign, digit run, no redundant
leading zero. -/
def parseNumber (cs : List Char) : Option (Int × List Char) :=
  let signed := cs.head? = some '-'
  let body := if signed then cs.tail else cs
  let ds := body.takeWhile Char.isDigit
  let rest := body.dropWhile Char.isDigit
  if ds.isEmpty then none
  else if ds.head? = some '0' ∧ ds.length > 1 then none
  else
    let v : Int := (digitsVal ds : Int)
    some (if signed then -v else v, rest)

mutual

/-- One JSON value at the head of the input (whitespace already skipped),
returning the value and the remaining input. -/
def parseValue : Nat → List Char → Option (Json × List Char)
  | 0, _ => none
  | fuel + 1, cs =>
    match cs with
    | [] => none
    | '{' :: rest =>
      match skipWs rest with
      | '}' :: rest' => some (Json.obj [], rest')
      | cs' => (parseMembers fuel cs' []).map (fun p => (Json.obj p.1, p.2))
    | '[' :: rest =>
      match skipWs rest with
      | ']' :: rest' => some (Json.arr [], rest')
      | cs' => (parseElements fuel cs' []).map (fun p => (Json.arr p.1, p.2))
    | '"' :: rest =>
      (parseStringBody rest).map (fun p => (Json.str (String.mk p.1), p.2))
    | 't' :: 'r' :: 'u' :: 'e' :: rest => some (Json.bool true, rest)
    | 'f' :: 'a' :: 'l' :: 's' :: 'e' :: rest => some (Json.bool false, rest)
    | 'n' :: 'u' :: 'l' :: 'l' :: rest => some (Json.null, rest)
    | c :: _ =>
      if c = '-' ∨ c.isDigit then
        (parseNumber cs).map (fun p => (Json.num p.1, p.2))
      else none

/-- Members of a JSON object after the opening brace (non-empty case),
accumulating into a Python-`dict`-like association list. -/
def parseMembers : Nat → List Char → List (String × Json) →
    Option (List (String × Json) × List Char)
  | 0, _, _ => none
  | fuel + 1, cs, acc =>
    match cs with
    | '"' :: rest =>
      match parseStringBody rest with
      | none => none
      | some (keyChars, r1) =>
        match skipWs r1 with
        | ':' :: r2 =>
          match parseValue fuel (skipWs r2) with
          | none => none
          | some (v, r3) =>
            let acc' := insertKey acc (String.mk keyChars) v
            match skipWs r3 with
            | ',' :: r4 => parseMembers fuel (skipWs r4) acc'
            | '}' :: r4 => some (acc', r4)
            | _ => none
        | _ => none
    | _ => none

/-- Elements of a JSON array after the opening bracket (non-empty case). -/
def parseElements : Nat → List Char → List Json →
    Option (List Json × List Char)
  | 0, _, _ => none
  | fuel + 1, cs, acc =>
    match parseValue fuel cs with
    | none => none
    | some (v, r1) =>
      match skipWs r1 with
      | ',' :: r2 => parseElements fuel (skipWs r2) (acc ++ [v])
      | ']' :: r2 => some (acc ++ [v], r2)
      | _ => none

end

/-- Python's `json.loads` on a character list: decode one document and
require only whitespace to follow.  Members/elements wrap back into
`Json.obj`/`Json.arr` inside `parseValue`; here the top level is decoded
with fuel bounded by the input length, which every descent strictly
consumes. -/
def loadsL (cs : List Char) : Option Json :=
  match parseValue (cs.length + 1) (skipWs cs) with
  | some (j, rest) => if skipWs rest = [] then some j else none
  | none => none

/-- `json.loads` on a `String`. -/
def loads (s : String) : Option Json :=
  loadsL s.data

/-! ### Python string primitives

`str.find`, `str.rfind` and slicing with step 1, as used by
`main.py` (lines 77-81, 158-159, 164, 170). -/

/-- Python `str.find(c)`: index of the first occurrence, `-1` if absent. -/
def pyFind : List Char → Char → Int
  | [], _ => -1
  | x :: xs, c =>
    if x = c then 0
    else if pyFind xs c = -1 then -1 else pyFind xs c + 1

/-- Python `str.rfind(c)`: index of the last occurrence, `-1` if absent. -/
def pyRfind (cs : List Char) (c : Char) : Int :=
  if pyFind cs.reverse c = -1 then -1
  else (cs.length : Int) - 1 - pyFind cs.reverse c

/-- Clamp a (possibly negative) Python slice bound into `[0, len]`. -/
def pyBound (len : Nat) (i : Int) : Nat :=
  if i < 0 then ((len : Int) + i).toNat else min i.toNat len

/-- Python slice `s[a:b]` (step 1, possibly negative bounds). -/
def pySlice (cs : List Char) (a b : Int) : List Char :=
  (cs.take (pyBound cs.length b)).drop (pyBound cs.length a)

/-! ### SeverityClassifier (`display_utils.get_color`) -/

/-- `display_utils.get_color`: a total mapping from a severity label,
uppercased, to a display colour, defaulting to `"default"`. -/
def get_color (severity : String) : String :=
  if severity.toUpper = "CRITICAL" then "bold red"
  else if severity.toUpper = "HIGH" then "red"
  else if severity.toUpper = "MEDIUM" then "yellow"
  else if severity.toUpper = "LOW" then "cyan"
  else if severity.toUpper = "INFO" then "blue"
  else "default"

/-! ### RecordDecoder (`ai_reviewer.LineRange`, `ai_reviewer.ReviewIssue`)

Python dataclasses perform no runtime type checking, so the fields hold
whatever `Json` values the input supplied; `LineRange.end` is renamed
`end_` because `end` is a Lean keyword. -/

/-- `ai_reviewer.LineRange`: the `line` sub-object of a review issue. -/
structure LineRange where
  start : Json
  end_ : Json
deriving Repr

/-- `ai_reviewer.ReviewIssue`: one decoded review finding. -/
structure ReviewIssue where
  file : Json
  line : LineRange
  severity : Json
  description : Json
  suggestion : Json
  codeSnippet : Option Json := none
deriving Repr

/-- `LineRange(**data["line"])`: keyword construction succeeds exactly when
the value is a mapping whose keys are `start` and `end`, both present,
nothing else; values are copied unchecked (TypeError otherwise). -/
def lineRangeOfKwargs : Json → Option LineRange
  | Json.obj kvs =>
    match lookupKey kvs "start", lookupKey kvs "end" with
    | some s, some e =>
      if kvs.all (fun p => p.1 == "start" || p.1 == "end") then
        some { start := s, end_ := e }
      else none
    | _, _ => none
  | _ => none

/-- Field names accepted by `ReviewIssue(**data)`. -/
def allowedKeys : List String :=
  ["file", "line", "severity", "description", "suggestion", "codeSnippet"]

/-- Field names `ReviewIssue(**data)` requires (no dataclass default). -/
def requiredKeys : List String :=
  ["file", "line", "severity", "description", "suggestion"]

/-- `ReviewIssue.from_dict`: replace `data["line"]` by
`LineRange(**data["line"])` (KeyError when absent) and build the dataclass
with `ReviewIssue(**data)`, which fails on any unexpected keyword and on
any missing required field.  `none` models the raised exception. -/
def from_dict : Json → Option ReviewIssue
  | Json.obj kvs =>
    match lookupKey kvs "line" with
    | none => none
    | some lineVal =>
      match lineRangeOfKwargs lineVal with
      | none => none
      | some lr =>
        if requiredKeys.all (fun k => (lookupKey kvs k).isSome) ∧
            kvs.all (fun p => allowedKeys.contains p.1) then
          match lookupKey kvs "file", lookupKey kvs "severity",
              lookupKey kvs "description", lookupKey kvs "suggestion" with
          | some f, some sev, some d, some sug =>
            some { file := f, line := lr, severity := sev,
                   description := d, suggestion := sug,
                   codeSnippet := lookupKey kvs "codeSnippet" }
          | _, _, _, _ => none
        else none
  | _ => none

/-- The spec's LineRange data-model invariant: `start <= end`, both
positive (necessarily integer-valued). -/
def lineRangeInv (lr : LineRange) : Bool :=
  match lr.start, lr.end_ with
  | Json.num a, Json.num b => 0 < a && 0 < b && a ≤ b
  | _, _ => false

/-! ### Whole-stream pass (`main.review`, lines 77-121)

After the stream ends, `review` looks for the first `[` and the last `]`
in the full response, decodes the enclosed span with `json.loads`, and
runs `ReviewIssue.from_dict` over the decoded items.  A
`json.JSONDecodeError` prints the extracted text verbatim and exits with
code 1; any other exception (a `from_dict` KeyError/TypeError, or
iterating a non-iterable) reaches the outer `except Exception` handler,
which prints a generic message plus traceback and exits with code 1;
absent array markers print a warning and return normally. -/

/-- Outcome of the parse phase of `main.review`. -/
inductive Outcome where
  | success (saved : List ReviewIssue)
  | decodeFailure (extracted : String)
  | unexpectedError
  | noArray
deriving Repr

/-- Python `for item in x` over a decoded JSON value: lists yield their
elements, dicts their keys, strings their characters; numbers, booleans
and `None` raise TypeError (`none`). -/
def iterItems : Json → Option (List Json)
  | Json.arr items => some items
  | Json.obj kvs => some (kvs.map (fun p => Json.str p.1))
  | Json.str s => some (s.data.map (fun c => Json.str (String.mk [c])))
  | _ => none

/-- The parse phase of `main.review` on the full concatenated response
(lines 77-113): locate the array span (`start_index`/`end_index`),
decode it, and decode each item. -/
def reviewParse (full : String) : Outcome :=
  if pyFind full.data '[' ≠ -1 ∧ pyRfind full.data ']' ≠ -1 ∧
      pyRfind full.data ']' > pyFind full.data '[' then
    match loadsL (pySlice full.data (pyFind full.data '[') (pyRfind full.data ']' + 1)) with
    | none =>
      Outcome.decodeFailure
        (String.mk (pySlice full.data (pyFind full.data '[') (pyRfind full.data ']' + 1)))
    | some j =>
      match iterItems j with
      | none => Outcome.unexpectedError
      | some items =>
        match items.mapM from_dict with
        | none => Outcome.unexpectedError
        | some issues => Outcome.success issues
  else Outcome.noArray

/-- Process exit code of the invocation for each parse-phase outcome
(`typer.Exit(code=1)` on both failure paths, normal return otherwise). -/
def exitCode : Outcome → Nat
  | Outcome.success _ => 0
  | Outcome.noArray => 0
  | Outcome.decodeFailure _ => 1
  | Outcome.unexpectedError => 1

/-- Whether the outcome's report shows the extracted span verbatim (the
`--- Extracted Text ---` print on the `JSONDecodeError` path). -/
def surfacedVerbatim : Outcome → Bool
  | Outcome.decodeFailure _ => true
  | _ => false

/-! ### IncrementalExtractor (`main.process_model_output`, lines 143-175)

State carried across characters: the accumulating `partial_response`
buffer and the `open_brackets` depth counter.  On a balanced buffer
longer than 5 characters the span from the first `{` to the last `}` is
fed to `json.loads`; `JSONDecodeError` is swallowed, but a successful
decode immediately reads `issue_data['severity']` (then
`get_color(...)​.upper()`, `issue_data['file']`,
`issue_data['description']`), so a decoded value that is not an object
carrying a string severity plus file and description raises an uncaught
KeyError/TypeError/AttributeError, modelled as `Except.error ()`. -/

/-- What one successful candidate decode prints (lines 165-168): the
decoded object together with the colour derived from its severity.
`none` models the uncaught exception when the keys are missing or the
severity is not a string. -/
def emissionOf (j : Json) : Option (String × Json) :=
  match j with
  | Json.obj kvs =>
    match lookupKey kvs "severity" with
    | some (Json.str sev) =>
      if (lookupKey kvs "file").isSome ∧ (lookupKey kvs "description").isSome then
        some (get_color sev, j)
      else none
    | _ => none
  | _ => none

/-- The incremental extractor's reaction to one streamed character
(lines 151-172): append, adjust depth by the character's `{`/`}` counts,
and on a balanced buffer longer than 5 characters attempt extraction. -/
def procChar (st : List Char × Int) (c : Char) :
    Except Unit ((List Char × Int) × Option (String × Json)) :=
  let buf := st.1 ++ [c]
  let depth := st.2 + (if c = '{' then 1 else 0) - (if c = '}' then 1 else 0)
  if depth = 0 ∧ buf.length > 5 then
    let start_index := pyFind buf '{'
    let end_index := pyRfind buf '}'
    match loadsL (pySlice buf start_index (end_index + 1)) with
    | none => Except.ok ((buf, depth), none)
    | some j =>
      match emissionOf j with
      | none => Except.error ()
      | some em =>
        Except.ok ((pySlice buf (end_index + 1) (buf.length : Int), depth), some em)
  else Except.ok ((buf, depth), none)

/-- Run the extractor over the characters of one fragment, collecting the
emissions in print order. -/
def procChars (st : List Char × Int) :
    List Char → Except Unit ((List Char × Int) × List (String × Json))
  | [] => Except.ok (st, [])
  | c :: rest =>
    match procChar st c with
    | Except.error e => Except.error e
    | Except.ok (st', em) =>
      match procChars st' rest with
      | Except.error e => Except.error e
      | Except.ok (st'', ems) => Except.ok (st'', em.toList ++ ems)

/-- Whole state of `process_model_output`: the `full_response`
accumulator, the extractor state, and the emissions so far. -/
structure IncAcc where
  full : List Char
  st : List Char × Int
  emits : List (String × Json)
deriving Repr

/-- One iteration of the outer `for output in result` loop: stream the
fragment's characters through the extractor, then append the fragment to
`full_response`. -/
def procFragment (acc : IncAcc) (frag : String) : Except Unit IncAcc :=
  match procChars acc.st frag.data with
  | Except.error e => Except.error e
  | Except.ok (st', ems) =>
    Except.ok { full := acc.full ++ frag.data, st := st', emits := acc.emits ++ ems }

/-- The outer `for output in result` loop, fragment by fragment. -/
def runFragments (acc : IncAcc) : List String → Except Unit IncAcc
  | [] => Except.ok acc
  | f :: fs =>
    match procFragment acc f with
    | Except.error e => Except.error e
    | Except.ok acc' => runFragments acc' fs

/-- `main.process_model_output` on the lazy sequence of streamed
fragments: returns the final accumulator whose `full` field is the
function's return value. -/
def process_model_output (frags : List String) : Except Unit IncAcc :=
  runFragments { full := [], st := ([], 0), emits := [] } frags

/-! ### ReviewNavigator (`issue_display.IssueDisplay`, lines 24-117)

The navigator owns a list of `DisplayIssue` wrappers (issue plus a
mutable `watched` flag) and a cursor `current_issue_index`.
`update_display` marks the issue under the cursor watched;
`display_issues` marks index 0 on entry and re-runs `update_display`
after every keypress transition.  Note that Lean's `%` on `Int` is
Euclidean, which for a positive modulus coincides with Python's `%`. -/

/-- `issue_display.DisplayIssue`: a record plus its seen flag. -/
structure DisplayIssue where
  issue : ReviewIssue
  watched : Bool := false
deriving Repr

/-- The two cursor-moving commands of the browsing loop. -/
inductive NavCmd where
  | next
  | previous
deriving Repr, DecidableEq

/-- Cursor arithmetic of lines 98, 100, 108 and 110:
`(cursor ± 1) % len(self.issues)`. -/
def moveIndex (cursor : Int) (n : Nat) : NavCmd → Int
  | NavCmd.next => (cursor + 1) % (n : Int)
  | NavCmd.previous => (cursor - 1) % (n : Int)

/-- `update_display`'s mutation (line 46): set the watched flag of the
issue at the given index (in range whenever the loop invariant holds). -/
def markWatched : List DisplayIssue → Nat → List DisplayIssue
  | [], _ => []
  | d :: ds, 0 => { d with watched := true } :: ds
  | d :: ds, i + 1 => d :: markWatched ds i

/-- Navigator state: the issue list and the cursor. -/
structure NavState where
  issues : List DisplayIssue
  cursor : Int
deriving Repr

/-- Entering `display_issues` (lines 83-86): cursor starts at `0` and the
first `update_display` marks that issue watched. -/
def navEnter (issues : List DisplayIssue) : NavState :=
  { issues := markWatched issues 0, cursor := 0 }

/-- One `Next`/`Previous` transition followed by the `update_display` at
the top of the loop: move the cursor, then mark the newly displayed
issue watched. -/
def navStep (s : NavState) (cmd : NavCmd) : NavState :=
  let c := moveIndex s.cursor s.issues.length cmd
  { issues := markWatched s.issues c.toNat, cursor := c }

/-- Index `i` has been seen (its watched flag is set). -/
def seen (s : NavState) (i : Nat) : Prop :=
  (s.issues.get? i).map DisplayIssue.watched = some true

/-! ### Keyboard protocol (`issue_display.display_issues`, lines 89-115,
and `issue_display.getch`, lines 12-21)

`getch` performs a raw-mode blocking `sys.stdin.read(1)` with no timeout;
the model reads from a list of available input units, and an exhausted
list (`none`) models a read that never returns because no byte arrives. -/

/-- What one loop iteration decides to do with the keyboard input. -/
inductive NavAction where
  | move (cmd : NavCmd)
  | quit
  | ignore
deriving Repr, DecidableEq

/-- `getch` on the available input units: `none` when no byte ever
arrives (the call blocks indefinitely; there is no bounded wait). -/
def getch : List Char → Option (Char × List Char)
  | [] => none
  | c :: rest => some (c, rest)

/-- One pass of the input handling of lines 89-115: read one unit and
translate it, reading up to two lookahead units after an escape.
`none` means the iteration is stuck inside a blocking `getch` call. -/
def interpretKeys (input : List Char) : Option (NavAction × List Char) :=
  match getch input with
  | none => none
  | some (u, r1) =>
    if u = '\x1b' then
      match getch r1 with
      | none => none
      | some (c1, r2) =>
        if c1 = '[' then
          match getch r2 with
          | none => none
          | some (c2, r3) =>
            if c2 = 'A' then some (NavAction.move NavCmd.previous, r3)
            else if c2 = 'B' then some (NavAction.move NavCmd.next, r3)
            else some (NavAction.quit, r3)
        else some (NavAction.quit, r2)
    else if u.toLower = 'j' then some (NavAction.move NavCmd.next, r1)
    else if u.toLower = 'k' then some (NavAction.move NavCmd.previous, r1)
    else if u = '\x03' then some (NavAction.quit, r1)
    else some (NavAction.ignore, r1)

/-! ### Spec-side characterization of the record decoder

`decodeOk` is written from the decoder's observed acceptance condition
(all required fields present, no key outside the known field set, and a
`line` value that is a mapping with exactly the keys `start` and `end`);
it is compared against `from_dict` below. -/

/-- Acceptance condition of the record decoder, stated declaratively. -/
def decodeOk : Json → Bool
  | Json.obj kvs =>
    requiredKeys.all (fun k => (lookupKey kvs k).isSome) &&
    kvs.all (fun p => allowedKeys.contains p.1) &&
    (match lookupKey kvs "line" with
     | some (Json.obj lkvs) =>
       (lookupKey lkvs "start").isSome && (lookupKey lkvs "end").isSome &&
       lkvs.all (fun p => p.1 == "start" || p.1 == "end")
     | _ => false)
  | _ => false

end Preflight

namespace Preflight

/-! ## Helper lemmas -/

/-- `markWatched` only touches the watched flag at the given index. -/
theorem get?_markWatched (l : List DisplayIssue) (i j : Nat) :
    (markWatched l i).get? j =
      if i = j then (l.get? j).map (fun d => { d with watched := true })
      else l.get? j := by
  induction l generalizing i j with
  | nil => simp [markWatched]
  | cons d ds ih =>
    cases i with
    | zero =>
      cases j with
      | zero => simp [markWatched]
      | succ j' => simp [markWatched]
    | succ i' =>
      cases j with
      | zero => simp [markWatched]
      | succ j' => simpa [markWatched] using ih i' j'

/-- Successful `mapM` over `Option` preserves the length. -/
theorem mapM_option_length {α β : Type} (f : α → Option β) :
    ∀ (xs : List α) (ys : List β), xs.mapM f = some ys → ys.length = xs.length := by
  intro xs
  induction xs with
  | nil =>
    intro ys h
    simp only [List.mapM_nil, Option.pure_def, Option.some.injEq] at h
    simp [← h]
  | cons x xs ih =>
    intro ys h
    simp only [List.mapM_cons, Option.pure_def, Option.bind_eq_bind,
      Option.bind_eq_some, Option.some.injEq] at h
    obtain ⟨b, hb, ys', hys', heq⟩ := h
    subst heq
    simpa using ih ys' hys'

/-- A concrete decoded record used by witnesses. -/
def sampleIssue : ReviewIssue :=
  { file := Json.str "a.py",
    line := { start := Json.num 1, end_ := Json.num 2 },
    severity := Json.str "HIGH",
    description := Json.str "d",
    suggestion := Json.str "s" }

/-! ## Claim theorems -/

/-- C5.  For a non-empty record list of length N and cursor c with
0 ≤ c < N, `Next` moves the cursor to (c + 1) mod N and `Previous` to
(c - 1 + N) mod N; `Next` at N-1 wraps to 0, `Previous` at 0 wraps to
N-1, and 0 ≤ cursor < N is preserved by every transition. -/
theorem navigator_wraparound (issues : List DisplayIssue) (c : Int)
    (hn : 0 < issues.length) (h0 : 0 ≤ c) (hc : c < issues.length) :
    (navStep ⟨issues, c⟩ NavCmd.next).cursor = (c + 1) % (issues.length : Int) ∧
    (navStep ⟨issues, c⟩ NavCmd.previous).cursor =
      (c - 1 + issues.length) % (issues.length : Int) ∧
    (c = (issues.length : Int) - 1 → (navStep ⟨issues, c⟩ NavCmd.next).cursor = 0) ∧
    (c = 0 → (navStep ⟨issues, c⟩ NavCmd.previous).cursor = (issues.length : Int) - 1) ∧
    (∀ cmd, 0 ≤ (navStep ⟨issues, c⟩ cmd).cursor ∧
      (navStep ⟨issues, c⟩ cmd).cursor < issues.length) := by
  have hlen : ((issues.length : Int)) ≠ 0 := by
    have := hn; omega
  refine ⟨rfl, ?_, ?_, ?_, ?_⟩
  · show (c - 1) % (issues.length : Int) = (c - 1 + issues.length) % (issues.length : Int)
    rw [show (c - 1 + (issues.length : Int)) = (c - 1) + (issues.length : Int) * 1 by ring,
      Int.add_mul_emod_self_left]
  · intro h
    show (c + 1) % (issues.length : Int) = 0
    rw [h, sub_add_cancel, Int.emod_self]
  · intro h
    show (c - 1) % (issues.length : Int) = (issues.length : Int) - 1
    rw [h, show ((0 : Int) - 1) = ((issues.length : Int) - 1) + (issues.length : Int) * (-1) by ring,
      Int.add_mul_emod_self_left, Int.emod_eq_of_lt (by omega) (by omega)]
  · intro cmd
    cases cmd with
    | next =>
      exact ⟨Int.emod_nonneg _ hlen,
        Int.emod_lt_of_pos _ (show (0 : Int) < (issues.length : Int) by omega)⟩
    | previous =>
      exact ⟨Int.emod_nonneg _ hlen,
        Int.emod_lt_of_pos _ (show (0 : Int) < (issues.length : Int) by omega)⟩

/-- Witness for C5 at a concrete three-record navigator with the cursor
on the last record. -/
theorem navigator_wraparound_witness :
    (0 : Int) ≤ 2 ∧
    (navStep ⟨[⟨sampleIssue, false⟩, ⟨sampleIssue, false⟩, ⟨sampleIssue, false⟩], 2⟩
      NavCmd.next).cursor = 0 :=
  ⟨by decide,
    (navigator_wraparound
      [⟨sampleIssue, false⟩, ⟨sampleIssue, false⟩, ⟨sampleIssue, false⟩] 2
      (by decide) (by decide) (by decide)).2.2.1 (by decide)⟩

/-- C6.  The seen set never shrinks across `Next`/`Previous` transitions
and grows by at most the newly visited index; every displayed record
(on entry and after every transition) has its seen flag set. -/
theorem navigator_seen_monotone :
    (∀ (s : NavState) (cmd : NavCmd) (i : Nat),
      seen s i → seen (navStep s cmd) i) ∧
    (∀ (s : NavState) (cmd : NavCmd) (i : Nat), seen (navStep s cmd) i →
      seen s i ∨ i = (moveIndex s.cursor s.issues.length cmd).toNat) ∧
    (∀ (s : NavState) (cmd : NavCmd),
      (moveIndex s.cursor s.issues.length cmd).toNat < s.issues.length →
      seen (navStep s cmd) (moveIndex s.cursor s.issues.length cmd).toNat) ∧
    (∀ (issues : List DisplayIssue), 0 < issues.length → seen (navEnter issues) 0) ∧
    (∀ (s : NavState) (cmds : List NavCmd) (i : Nat), seen s i →
      seen (cmds.foldl navStep s) i) := by
  have hmono : ∀ (s : NavState) (cmd : NavCmd) (i : Nat),
      seen s i → seen (navStep s cmd) i := by
    intro s cmd i h
    unfold seen navStep at *
    rw [get?_markWatched]
    split
    · cases hg : s.issues.get? i with
      | none => rw [hg] at h; simp at h
      | some d => rw [hg] at h; simp at h; simp [hg]
    · exact h
  refine ⟨hmono, ?_, ?_, ?_, ?_⟩
  · intro s cmd i h
    unfold seen navStep at h
    rw [get?_markWatched] at h
    by_cases hi : (moveIndex s.cursor s.issues.length cmd).toNat = i
    · exact Or.inr hi.symm
    · rw [if_neg hi] at h
      exact Or.inl h
  · intro s cmd h
    unfold seen navStep
    rw [get?_markWatched, if_pos rfl]
    cases hg : s.issues.get? (moveIndex s.cursor s.issues.length cmd).toNat with
    | none =>
      rw [List.get?_eq_none] at hg
      omega
    | some d => simp
  · intro issues h
    unfold seen navEnter
    rw [get?_markWatched, if_pos rfl]
    cases hg : issues.get? 0 with
    | none =>
      rw [List.get?_eq_none] at hg
      omega
    | some d => simp
  · intro s cmds
    induction cmds generalizing s with
    | nil => intro i h; simpa using h
    | cons cmd cmds ih =>
      intro i h
      simpa using ih (navStep s cmd) i (hmono s cmd i h)

/-- Witness for C6 at a concrete two-record navigator: stepping `Next`
from the entry state displays record 1 and marks it seen. -/
theorem navigator_seen_monotone_witness :
    (moveIndex (navEnter [⟨sampleIssue, false⟩, ⟨sampleIssue, false⟩]).cursor
        (navEnter [⟨sampleIssue, false⟩, ⟨sampleIssue, false⟩]).issues.length
        NavCmd.next).toNat <
      (navEnter [⟨sampleIssue, false⟩, ⟨sampleIssue, false⟩]).issues.length ∧
    seen (navStep (navEnter [⟨sampleIssue, false⟩, ⟨sampleIssue, false⟩]) NavCmd.next)
      (moveIndex (navEnter [⟨sampleIssue, false⟩, ⟨sampleIssue, false⟩]).cursor
        (navEnter [⟨sampleIssue, false⟩, ⟨sampleIssue, false⟩]).issues.length
        NavCmd.next).toNat :=
  ⟨by decide,
    navigator_seen_monotone.2.2.1
      (navEnter [⟨sampleIssue, false⟩, ⟨sampleIssue, false⟩]) NavCmd.next (by decide)⟩

/-- Keyword construction of a `LineRange` succeeds exactly on mappings
with both `start` and `end` and nothing else. -/
theorem lineRangeOfKwargs_isSome (lv : Json) :
    (lineRangeOfKwargs lv).isSome =
      (match lv with
       | Json.obj lkvs =>
         (lookupKey lkvs "start").isSome && (lookupKey lkvs "end").isSome &&
         lkvs.all (fun p => p.1 == "start" || p.1 == "end")
       | _ => false) := by
  cases lv with
  | obj lkvs =>
    simp only [lineRangeOfKwargs]
    cases hs : lookupKey lkvs "start" with
    | none => simp
    | some sv =>
      cases he : lookupKey lkvs "end" with
      | none => simp
      | some ev =>
        by_cases hall : lkvs.all (fun p => p.1 == "start" || p.1 == "end") = true
        · simp [hall]
        · simp only [Bool.not_eq_true] at hall
          simp [hall]
  | null => rfl
  | bool b => rfl
  | num n => rfl
  | str s => rfl
  | arr items => rfl

/-- An input object carrying every required field, a well-formed line
object, and one extra unknown key. -/
def extraKeyObj : List (String × Json) :=
  [("file", Json.str "a.py"),
   ("line", Json.obj [("start", Json.num 1), ("end", Json.num 2)]),
   ("severity", Json.str "HIGH"),
   ("description", Json.str "d"),
   ("suggestion", Json.str "s"),
   ("extra", Json.num 1)]

/-- C4 counterexample.  On an object with every required field present
and a `line` field that decodes into a LineRange, but one extra key, the
decoder fails — so "required fields present and line well-formed" is not
sufficient for success. -/
theorem record_decoder_iff_counterexample :
    requiredKeys.all (fun k => (lookupKey extraKeyObj k).isSome) = true ∧
    (lookupKey extraKeyObj "line").map (fun lv => (lineRangeOfKwargs lv).isSome) =
      some true ∧
    from_dict (Json.obj extraKeyObj) = none :=
  ⟨rfl, rfl, rfl⟩

/-- C4 amended.  The decoder succeeds exactly when all required fields
are present, no key lies outside the known field set, and the line value
is a mapping with exactly the keys `start` and `end`; the decoded
`codeSnippet` is whatever the input carried under that key (`none`, the
dataclass default, when absent). -/
theorem record_decoder_characterization :
    (∀ j, (from_dict j).isSome = decodeOk j) ∧
    (∀ kvs r, from_dict (Json.obj kvs) = some r →
      r.codeSnippet = lookupKey kvs "codeSnippet") := by
  constructor
  · intro j
    cases j with
    | null => rfl
    | bool b => rfl
    | num n => rfl
    | str s => rfl
    | arr items => rfl
    | obj kvs =>
      simp only [from_dict, decodeOk]
      cases hl : lookupKey kvs "line" with
      | none => simp [requiredKeys, hl]
      | some lv =>
        cases h2 : lineRangeOfKwargs lv with
        | none =>
          have hsome := (lineRangeOfKwargs_isSome lv).symm
          rw [h2] at hsome
          simp only [Option.isSome_none] at hsome
          cases lv with
          | obj lkvs =>
            simp only at hsome
            simp [hl, h2, hsome]
          | null => simp [hl, h2]
          | bool b => simp [hl, h2]
          | num n => simp [hl, h2]
          | str s => simp [hl, h2]
          | arr items => simp [hl, h2]
        | some lr =>
          have hsome := lineRangeOfKwargs_isSome lv
          rw [h2] at hsome
          cases lv with
          | null => simp at hsome
          | bool b => simp at hsome
          | num n => simp at hsome
          | str s => simp at hsome
          | arr items => simp at hsome
          | obj lkvs =>
            simp only [Option.isSome_some] at hsome
            by_cases hcond : requiredKeys.all (fun k => (lookupKey kvs k).isSome) = true ∧
                kvs.all (fun p => allowedKeys.contains p.1) = true
            · have hcond' := hcond
              obtain ⟨hreq, hallow⟩ := hcond'
              have hreq' := hreq
              simp only [requiredKeys, List.all_cons, List.all_nil, Bool.and_true,
                Bool.and_eq_true] at hreq'
              obtain ⟨hf, hln, hsev, hd, hsug⟩ := hreq'
              rw [Option.isSome_iff_exists] at hf hsev hd hsug
              obtain ⟨fv, hf⟩ := hf
              obtain ⟨sevv, hsev⟩ := hsev
              obtain ⟨dv, hd⟩ := hd
              obtain ⟨sugv, hsug⟩ := hsug
              simp only [h2, hl]
              rw [if_pos hcond]
              simp only [hf, hsev, hd, hsug, Option.isSome_some]
              rw [hreq, hallow, ← hsome]
              rfl
            · simp only [h2, hl]
              rw [if_neg hcond]
              rw [Decidable.not_and_iff_or_not] at hcond
              cases hcond with
              | inl h =>
                simp only [Bool.not_eq_true] at h
                rw [h]
                simp only [Bool.false_and, Option.isSome_none]
              | inr h =>
                simp only [Bool.not_eq_true] at h
                rw [h]
                simp only [Bool.and_false, Bool.false_and, Option.isSome_none]
  · intro kvs r hr
    simp only [from_dict] at hr
    cases hl : lookupKey kvs "line" with
    | none => rw [hl] at hr; simp at hr
    | some lv =>
      simp only [hl] at hr
      cases h2 : lineRangeOfKwargs lv with
      | none => rw [h2] at hr; simp at hr
      | some lr =>
        simp only [h2] at hr
        by_cases hcond : requiredKeys.all (fun k => (lookupKey kvs k).isSome) = true ∧
            kvs.all (fun p => allowedKeys.contains p.1) = true
        · rw [if_pos hcond] at hr
          cases hf : lookupKey kvs "file" with
          | none => simp only [hf] at hr; simp at hr
          | some fv =>
            simp only [hf] at hr
            cases hsev : lookupKey kvs "severity" with
            | none => simp only [hsev] at hr; simp at hr
            | some sevv =>
              simp only [hsev] at hr
              cases hd : lookupKey kvs "description" with
              | none => simp only [hd] at hr; simp at hr
              | some dv =>
                simp only [hd] at hr
                cases hsug : lookupKey kvs "suggestion" with
                | none => simp only [hsug] at hr; simp at hr
                | some sugv =>
                  simp only [hsug] at hr
                  injection hr with hr'
                  rw [← hr']
        · rw [if_neg hcond] at hr
          simp at hr

/-- Witness for the C4 amended theorem: a minimal valid object (no
`codeSnippet`) decodes, and decoding matches `decodeOk`; the decoded
record's `codeSnippet` is the default `none`. -/
theorem record_decoder_characterization_witness :
    (from_dict (Json.obj [("file", Json.str "a.py"),
        ("line", Json.obj [("start", Json.num 1), ("end", Json.num 2)]),
        ("severity", Json.str "HIGH"), ("description", Json.str "d"),
        ("suggestion", Json.str "s")])).isSome =
      decodeOk (Json.obj [("file", Json.str "a.py"),
        ("line", Json.obj [("start", Json.num 1), ("end", Json.num 2)]),
        ("severity", Json.str "HIGH"), ("description", Json.str "d"),
        ("suggestion", Json.str "s")]) ∧
    sampleIssue.codeSnippet =
      lookupKey [("file", Json.str "a.py"),
        ("line", Json.obj [("start", Json.num 1), ("end", Json.num 2)]),
        ("severity", Json.str "HIGH"), ("description", Json.str "d"),
        ("suggestion", Json.str "s")] "codeSnippet" :=
  ⟨record_decoder_characterization.1 _,
    record_decoder_characterization.2 _ sampleIssue (by rfl)⟩

/-- An input object whose line range is reversed (start 5, end 2). -/
def reversedRangeObj : List (String × Json) :=
  [("file", Json.str "a.py"),
   ("line", Json.obj [("start", Json.num 5), ("end", Json.num 2)]),
   ("severity", Json.str "HIGH"),
   ("description", Json.str "d"),
   ("suggestion", Json.str "s")]

/-- The record `from_dict` produces for `reversedRangeObj`. -/
def reversedIssue : ReviewIssue :=
  { file := Json.str "a.py",
    line := { start := Json.num 5, end_ := Json.num 2 },
    severity := Json.str "HIGH",
    description := Json.str "d",
    suggestion := Json.str "s" }

/-- C8 counterexample.  The decoder accepts a record whose line range has
start 5 and end 2, producing a LineRange that violates the claimed
`start <= end`/positivity invariant. -/
theorem linerange_invariant_counterexample :
    from_dict (Json.obj reversedRangeObj) = some reversedIssue ∧
    lineRangeInv reversedIssue.line = false :=
  ⟨rfl, rfl⟩

/-- C8 amended.  The decoder copies the `start` and `end` values of the
line object through unvalidated: whatever the input carried is what the
produced LineRange holds. -/
theorem linerange_passthrough (kvs lkvs : List (String × Json)) (s e : Json)
    (r : ReviewIssue)
    (hline : lookupKey kvs "line" = some (Json.obj lkvs))
    (hs : lookupKey lkvs "start" = some s)
    (he : lookupKey lkvs "end" = some e)
    (hr : from_dict (Json.obj kvs) = some r) :
    r.line.start = s ∧ r.line.end_ = e := by
  by_cases hall : lkvs.all (fun p => p.1 == "start" || p.1 == "end") = true
  · have hlr : lineRangeOfKwargs (Json.obj lkvs) = some { start := s, end_ := e } := by
      simp [lineRangeOfKwargs, hs, he, hall]
    simp only [from_dict, hline, hlr] at hr
    by_cases hcond : requiredKeys.all (fun k => (lookupKey kvs k).isSome) = true ∧
        kvs.all (fun p => allowedKeys.contains p.1) = true
    · rw [if_pos hcond] at hr
      cases hf : lookupKey kvs "file" with
      | none => simp only [hf] at hr; simp at hr
      | some fv =>
        simp only [hf] at hr
        cases hsev : lookupKey kvs "severity" with
        | none => simp only [hsev] at hr; simp at hr
        | some sevv =>
          simp only [hsev] at hr
          cases hd : lookupKey kvs "description" with
          | none => simp only [hd] at hr; simp at hr
          | some dv =>
            simp only [hd] at hr
            cases hsug : lookupKey kvs "suggestion" with
            | none => simp only [hsug] at hr; simp at hr
            | some sugv =>
              simp only [hsug] at hr
              injection hr with hr'
              subst hr'
              exact ⟨rfl, rfl⟩
    · rw [if_neg hcond] at hr
      simp at hr
  · have hlr : lineRangeOfKwargs (Json.obj lkvs) = none := by
      simp only [Bool.not_eq_true] at hall
      simp [lineRangeOfKwargs, hs, he, hall]
    simp only [from_dict, hline, hlr] at hr
    simp at hr

/-- Witness for the C8 amended theorem at the reversed-range record. -/
theorem linerange_passthrough_witness :
    lookupKey reversedRangeObj "line" =
      some (Json.obj [("start", Json.num 5), ("end", Json.num 2)]) ∧
    (reversedIssue.line.start = Json.num 5 ∧ reversedIssue.line.end_ = Json.num 2) :=
  ⟨rfl,
    linerange_passthrough reversedRangeObj
      [("start", Json.num 5), ("end", Json.num 2)] (Json.num 5) (Json.num 2)
      reversedIssue rfl rfl rfl rfl⟩

/-- C10.  An input object containing any key outside the known field set
is rejected by the decoder (unknown keys are not silently dropped). -/
theorem from_dict_rejects_unknown_keys (kvs : List (String × Json)) (k : String)
    (hk : k ∈ kvs.map Prod.fst)
    (hreq : requiredKeys.all (fun k' => (lookupKey kvs k').isSome) = true)
    (hout : k ∉ allowedKeys) :
    from_dict (Json.obj kvs) = none := by
  have hall : kvs.all (fun p => allowedKeys.contains p.1) = false := by
    cases hcase : kvs.all (fun p => allowedKeys.contains p.1) with
    | false => rfl
    | true =>
      exfalso
      rw [List.mem_map] at hk
      obtain ⟨p, hp, hpk⟩ := hk
      have hmem : p.1 ∈ allowedKeys := by
        simpa using List.all_eq_true.mp hcase p hp
      rw [hpk] at hmem
      exact hout hmem
  have hneg : ¬(requiredKeys.all (fun k' => (lookupKey kvs k').isSome) = true ∧
      kvs.all (fun p => allowedKeys.contains p.1) = true) := by
    intro hcc
    rw [hall] at hcc
    exact Bool.false_ne_true hcc.2
  cases hl : lookupKey kvs "line" with
  | none => simp [from_dict, hl]
  | some lv =>
    cases h2 : lineRangeOfKwargs lv with
    | none => simp [from_dict, hl, h2]
    | some lr =>
      simp only [from_dict, hl, h2]
      rw [if_neg hneg]

/-- Witness for C10 at the concrete extra-key object. -/
theorem from_dict_rejects_unknown_keys_witness :
    "extra" ∈ extraKeyObj.map Prod.fst ∧
    from_dict (Json.obj extraKeyObj) = none :=
  ⟨by decide,
    from_dict_rejects_unknown_keys extraKeyObj "extra" (by decide) (by rfl) (by decide)⟩

/-- C9 (keyboard protocol).  The arrow-key mapping after an escape unit
reads at most two lookahead units (ESC `[` `A` → Previous, ESC `[` `B` →
Next, any other continuation → Quit), but a lone escape leaves the loop
stuck inside a blocking `getch` with no bounded wait: on the failing
input ESC-with-no-further-bytes the interpreter produces no action at
all instead of falling back to Quit. -/
theorem escape_lookahead_blocks :
    interpretKeys ['\x1b'] = none ∧
    interpretKeys ['\x1b', '['] = none ∧
    interpretKeys ['\x1b', '[', 'A'] = some (NavAction.move NavCmd.previous, []) ∧
    interpretKeys ['\x1b', '[', 'B'] = some (NavAction.move NavCmd.next, []) ∧
    interpretKeys ['\x1b', '[', 'C'] = some (NavAction.quit, []) ∧
    interpretKeys ['\x1b', 'x'] = some (NavAction.quit, []) := by
  refine ⟨rfl, rfl, by decide, by decide, by decide, by decide⟩

/-- `str.find` on a concatenation whose left part misses the character
and whose right part starts with it. -/
theorem pyFind_append_head (pre rest : List Char) (c : Char)
    (h1 : c ∉ pre) (h2 : rest.head? = some c) :
    pyFind (pre ++ rest) c = pre.length := by
  induction pre with
  | nil =>
    cases rest with
    | nil => simp at h2
    | cons x t =>
      simp only [List.head?_cons, Option.some.injEq] at h2
      subst h2
      simp [pyFind]
  | cons x pre ih =>
    have hx : x ≠ c := fun h => h1 (h ▸ List.mem_cons_self x pre)
    have hc : c ∉ pre := fun h => h1 (List.mem_cons_of_mem x h)
    simp only [List.cons_append, pyFind, if_neg hx, List.append_eq]
    rw [ih hc]
    rw [if_neg (by omega : ((pre.length : Int)) ≠ -1)]
    simp only [List.length_cons]
    push_cast
    ring

/-- `str.rfind` on `pre ++ s ++ post` when `post` misses the character
and `s` ends with it. -/
theorem pyRfind_concat (pre s post : List Char) (c : Char)
    (hpost : c ∉ post) (hlast : s.getLast? = some c) :
    pyRfind (pre ++ s ++ post) c = (pre.length : Int) + s.length - 1 := by
  have hrev : (pre ++ s ++ post).reverse = post.reverse ++ (s.reverse ++ pre.reverse) := by
    simp [List.reverse_append, List.append_assoc]
  have hsh : s.reverse.head? = some c := by
    rw [List.head?_reverse]; exact hlast
  have hh : (s.reverse ++ pre.reverse).head? = some c := by
    cases hs : s.reverse with
    | nil => rw [hs] at hsh; simp at hsh
    | cons y t =>
      rw [hs] at hsh
      simp only [List.head?_cons, Option.some.injEq] at hsh
      subst hsh
      simp
  have hnp : c ∉ post.reverse := by rw [List.mem_reverse]; exact hpost
  have hfind := pyFind_append_head post.reverse (s.reverse ++ pre.reverse) c hnp hh
  unfold pyRfind
  rw [hrev, hfind]
  rw [if_neg (by omega : ((post.reverse.length : Int)) ≠ -1)]
  simp only [List.length_append, List.length_reverse]
  push_cast
  ring

/-- Python slicing cuts the middle factor out of a concatenation. -/
theorem pySlice_middle (pre s post : List Char) :
    pySlice (pre ++ s ++ post) (pre.length : Int) ((pre.length : Int) + s.length) = s := by
  unfold pySlice pyBound
  rw [if_neg (by omega : ¬((pre.length : Int) < 0)),
    if_neg (by omega : ¬((pre.length : Int) + (s.length : Int) < 0))]
  have h1 : ((pre.length : Int)).toNat = pre.length := Int.toNat_natCast pre.length
  have h2 : (((pre.length : Int)) + (s.length : Int)).toNat = pre.length + s.length := by
    rw [show ((pre.length : Int) + (s.length : Int)) = ((pre.length + s.length : Nat) : Int) by
      push_cast; ring]
    exact Int.toNat_natCast _
  rw [h1, h2]
  have hlen : (pre ++ s ++ post).length = pre.length + s.length + post.length := by
    simp
    omega
  rw [min_eq_left (by omega), min_eq_left (by omega)]
  rw [show pre.length + s.length = (pre ++ s).length from (List.length_append pre s).symm]
  rw [List.take_left]
  rw [List.drop_left]

/-- C1.  When the full concatenated text holds a well-formed JSON array
of decodable record objects as the span from its first `[` to its last
`]`, the whole-stream pass extracts exactly that span, decodes it, and
yields exactly those records in their original array order. -/
theorem wholeStream_order_preservation
    (full : String) (pre s post : List Char) (items : List Json)
    (issues : List ReviewIssue)
    (hfull : full.data = pre ++ s ++ post)
    (hpre : '[' ∉ pre) (hpost : ']' ∉ post)
    (hhead : s.head? = some '[') (hlast : s.getLast? = some ']')
    (hparse : loadsL s = some (Json.arr items))
    (hdecode : items.mapM from_dict = some issues) :
    reviewParse full = Outcome.success issues ∧
    issues.length = items.length := by
  have hs2 : 2 ≤ s.length := by
    cases s with
    | nil => simp at hhead
    | cons a t =>
      simp only [List.head?_cons, Option.some.injEq] at hhead
      cases t with
      | nil =>
        simp only [List.getLast?_singleton, Option.some.injEq] at hlast
        exact absurd (hhead ▸ hlast) (by decide)
      | cons b u => simp [List.length_cons]
  have hfind : pyFind (pre ++ s ++ post) '[' = pre.length := by
    rw [List.append_assoc]
    apply pyFind_append_head pre (s ++ post) '[' hpre
    cases s with
    | nil => simp at hhead
    | cons a t =>
      simp only [List.head?_cons, Option.some.injEq] at hhead
      subst hhead
      simp
  have hrfind : pyRfind (pre ++ s ++ post) ']' = (pre.length : Int) + s.length - 1 :=
    pyRfind_concat pre s post ']' hpost hlast
  refine ⟨?_, mapM_option_length from_dict items issues hdecode⟩
  simp only [reviewParse, hfull, hfind, hrfind]
  rw [if_pos ⟨by omega, by omega, by omega⟩]
  rw [show ((pre.length : Int) + s.length - 1 + 1) = ((pre.length : Int) + s.length) from by
    ring]
  rw [pySlice_middle]
  simp only [hparse, iterItems, hdecode]

/-- The decoded items of `sampleArrayText`. -/
def sampleObj : List (String × Json) :=
  [("file", Json.str "a.py"),
   ("line", Json.obj [("start", Json.num 1), ("end", Json.num 2)]),
   ("severity", Json.str "HIGH"),
   ("description", Json.str "d"),
   ("suggestion", Json.str "s")]

/-- A concrete streamed array of one valid record. -/
def sampleArrayText : String :=
  "[\x7b\"file\":\"a.py\",\"line\":\x7b\"start\":1,\"end\":2\x7d,\"severity\":\"HIGH\",\"description\":\"d\",\"suggestion\":\"s\"\x7d]"

/-- Witness for C1: prefix noise, one-record array, trailing noise. -/
theorem wholeStream_order_preservation_witness :
    '[' ∉ "noise ".data ∧
    reviewParse (String.mk ("noise ".data ++ sampleArrayText.data ++ " end".data)) =
      Outcome.success [sampleIssue] :=
  ⟨by decide,
    (wholeStream_order_preservation
      (String.mk ("noise ".data ++ sampleArrayText.data ++ " end".data))
      "noise ".data sampleArrayText.data " end".data
      [Json.obj sampleObj] [sampleIssue]
      rfl (by decide) (by decide) (by decide) (by decide) (by rfl) (by rfl)).1⟩

/-- C3 counterexample.  Streaming the characters of `{"a":1}` brings the
buffer to a balanced state whose candidate span decodes successfully, yet
the extractor neither emits nor resets: the key accesses following the
decode raise an uncaught error, aborting the pass. -/
theorem incremental_step_claim_counterexample :
    loadsL (pySlice ("\x7b\"a\":1".data ++ ['}'])
        (pyFind ("\x7b\"a\":1".data ++ ['}']) '{')
        (pyRfind ("\x7b\"a\":1".data ++ ['}']) '}' + 1)) =
      some (Json.obj [("a", Json.num 1)]) ∧
    procChar ("\x7b\"a\":1".data, 1) '}' = Except.error () :=
  ⟨rfl, rfl⟩

/-- C3 amended.  Per streamed character the extractor appends to the
buffer and adjusts the depth by the character's `{`/`}` counts; exactly
when the new depth is 0 and the new buffer is longer than 5 it decodes
the span from the first `{` to the last `}`: on JSON decode failure the
buffer is left unchanged and nothing is emitted or raised; on a decode
yielding an object with a string severity plus file and description it
emits and resets the buffer to the text after the last `}`; on any other
successful decode the pass aborts with an uncaught error. -/
theorem incremental_step_characterization (st : List Char × Int) (c : Char)
    (buf : List Char) (depth : Int)
    (hbuf : buf = st.1 ++ [c])
    (hdepth : depth = st.2 + (if c = '{' then 1 else 0) - (if c = '}' then 1 else 0)) :
    (¬(depth = 0 ∧ buf.length > 5) → procChar st c = Except.ok ((buf, depth), none)) ∧
    ((depth = 0 ∧ buf.length > 5) →
      (loadsL (pySlice buf (pyFind buf '{') (pyRfind buf '}' + 1)) = none →
        procChar st c = Except.ok ((buf, depth), none)) ∧
      (∀ j, loadsL (pySlice buf (pyFind buf '{') (pyRfind buf '}' + 1)) = some j →
        emissionOf j = none → procChar st c = Except.error ()) ∧
      (∀ j em, loadsL (pySlice buf (pyFind buf '{') (pyRfind buf '}' + 1)) = some j →
        emissionOf j = some em →
        procChar st c =
          Except.ok ((pySlice buf (pyRfind buf '}' + 1) (buf.length : Int), depth), some em))) := by
  subst hbuf hdepth
  constructor
  · intro hn
    simp only [procChar]
    rw [if_neg hn]
  · intro hc
    refine ⟨?_, ?_, ?_⟩
    · intro hload
      simp only [procChar]
      rw [if_pos hc, hload]
    · intro j hload hem
      simp only [procChar]
      rw [if_pos hc]
      simp only [hload, hem]
    · intro j em hload hem
      simp only [procChar]
      rw [if_pos hc]
      simp only [hload, hem]

/-- Witness for the C3 amended theorem: a single non-brace character on
an empty buffer takes the quiescent branch. -/
theorem incremental_step_characterization_witness :
    ¬(((0 : Int) + (if 'x' = '{' then 1 else 0) - (if 'x' = '}' then 1 else 0)) = 0 ∧
        (([] : List Char) ++ ['x']).length > 5) ∧
    procChar (([] : List Char), (0 : Int)) 'x' = Except.ok ((['x'], 0), none) :=
  ⟨by decide,
    (incremental_step_characterization (([] : List Char), (0 : Int)) 'x'
      ([] ++ ['x'])
      ((0 : Int) + (if 'x' = '{' then 1 else 0) - (if 'x' = '}' then 1 else 0))
      rfl rfl).1 (by decide)⟩

/-- C7 counterexample.  On the response `[{}]` the whole-stream pass
locates the span, the span decodes, and its single item fails structural
validation; the run exits non-zero but through the generic
unexpected-error handler: the raw extracted text is not surfaced
verbatim. -/
theorem review_errorpath_counterexample :
    loadsL (pySlice "[{}]".data (pyFind "[{}]".data '[')
        (pyRfind "[{}]".data ']' + 1)) = some (Json.arr [Json.obj []]) ∧
    from_dict (Json.obj []) = none ∧
    reviewParse "[{}]" = Outcome.unexpectedError ∧
    exitCode (reviewParse "[{}]") = 1 ∧
    surfacedVerbatim (reviewParse "[{}]") = false :=
  ⟨rfl, rfl, rfl, rfl, rfl⟩

/-- C7 amended.  When the array span is located, a JSON decode failure is
surfaced verbatim (extracted text shown) with exit code 1, while a
structural-validation failure of a decoded item exits 1 through the
generic unexpected-error handler without the verbatim extracted-text
display. -/
theorem review_errorpath_characterization (full : String)
    (hs : pyFind full.data '[' ≠ -1)
    (he : pyRfind full.data ']' ≠ -1)
    (hgt : pyRfind full.data ']' > pyFind full.data '[') :
    (loadsL (pySlice full.data (pyFind full.data '[') (pyRfind full.data ']' + 1)) = none →
      reviewParse full =
        Outcome.decodeFailure
          (String.mk (pySlice full.data (pyFind full.data '[') (pyRfind full.data ']' + 1))) ∧
      exitCode (reviewParse full) = 1 ∧
      surfacedVerbatim (reviewParse full) = true) ∧
    (∀ items,
      loadsL (pySlice full.data (pyFind full.data '[') (pyRfind full.data ']' + 1)) =
        some (Json.arr items) →
      items.mapM from_dict = none →
      reviewParse full = Outcome.unexpectedError ∧
      exitCode (reviewParse full) = 1 ∧
      surfacedVerbatim (reviewParse full) = false) := by
  constructor
  · intro hload
    have hout : reviewParse full =
        Outcome.decodeFailure
          (String.mk (pySlice full.data (pyFind full.data '[') (pyRfind full.data ']' + 1))) := by
      simp only [reviewParse]
      rw [if_pos ⟨hs, he, hgt⟩, hload]
    exact ⟨hout, by rw [hout]; rfl, by rw [hout]; rfl⟩
  · intro items hload hmap
    have hout : reviewParse full = Outcome.unexpectedError := by
      simp only [reviewParse]
      rw [if_pos ⟨hs, he, hgt⟩, hload]
      simp only [iterItems]
      rw [hmap]
    exact ⟨hout, by rw [hout]; rfl, by rw [hout]; rfl⟩

/-- The extractor's character loop splits over list append. -/
theorem procChars_append (a b : List Char) :
    ∀ st, procChars st (a ++ b) =
      match procChars st a with
      | Except.error e => Except.error e
      | Except.ok (st', e1) =>
        match procChars st' b with
        | Except.error e => Except.error e
        | Except.ok (st'', e2) => Except.ok (st'', e1 ++ e2) := by
  induction a with
  | nil =>
    intro st
    rw [List.nil_append]
    cases h : procChars st b with
    | error e => simp [procChars, h]
    | ok p => cases p with | mk st'' e2 => simp [procChars, h]
  | cons c a ih =>
    intro st
    simp only [List.cons_append, procChars]
    cases hc : procChar st c with
    | error e => rfl
    | ok p =>
      obtain ⟨st1, em⟩ := p
      dsimp only
      simp only [List.append_eq]
      rw [ih st1]
      cases h1 : procChars st1 a with
      | error e => rfl
      | ok q =>
        obtain ⟨st2, e1⟩ := q
        dsimp only
        cases h2 : procChars st2 b with
        | error e => rfl
        | ok r =>
          obtain ⟨st3, e2⟩ := r
          simp [List.append_assoc]

/-- The characters of a joined string are the flattened characters of
its parts. -/
theorem data_string_join (l : List String) :
    (String.join l).data = (l.map String.data).flatten := by
  have h : ∀ (l : List String) (s : String),
      (l.foldl (fun r t => r ++ t) s).data = s.data ++ (l.map String.data).flatten := by
    intro l
    induction l with
    | nil => intro s; simp
    | cons t l ih =>
      intro s
      simp only [List.foldl_cons, List.map_cons, List.flatten_cons]
      rw [ih, String.data_append, List.append_assoc]
  simpa using h l ""

/-- Running `process_model_output`'s fragment loop from any accumulator
is the character loop over the concatenation of the fragments. -/
theorem runFragments_eq (frags : List String) :
    ∀ acc, runFragments acc frags =
      match procChars acc.st (frags.map String.data).flatten with
      | Except.error e => Except.error e
      | Except.ok (st', ems) =>
        Except.ok { full := acc.full ++ (frags.map String.data).flatten,
                    st := st', emits := acc.emits ++ ems } := by
  induction frags with
  | nil =>
    intro acc
    simp only [runFragments, List.map_nil, List.flatten_nil, procChars,
      List.append_nil]
  | cons f fs ih =>
    intro acc
    simp only [runFragments, List.map_cons, List.flatten_cons, procFragment]
    rw [procChars_append f.data (fs.map String.data).flatten acc.st]
    cases h1 : procChars acc.st f.data with
    | error e => rfl
    | ok p =>
      obtain ⟨st1, e1⟩ := p
      dsimp only
      rw [ih]
      cases h2 : procChars st1 (fs.map String.data).flatten with
      | error e => rfl
      | ok q =>
        obtain ⟨st2, e2⟩ := q
        simp [List.append_assoc]

/-- C2.  Feeding a stream in arbitrary fragments is indistinguishable
from feeding its concatenation as a single fragment: the full
accumulator (returned `full_response`, extractor state, emissions) is
identical, and hence so is the eventual whole-stream decode result. -/
theorem fragmentation_invariance (frags : List String) :
    process_model_output frags = process_model_output [String.join frags] ∧
    (process_model_output frags).map (fun acc => reviewParse (String.mk acc.full)) =
      (process_model_output [String.join frags]).map
        (fun acc => reviewParse (String.mk acc.full)) := by
  have h : process_model_output frags = process_model_output [String.join frags] := by
    unfold process_model_output
    rw [runFragments_eq, runFragments_eq]
    simp [data_string_join]
  exact ⟨h, by rw [h]⟩

/-- Witness for the C7 amended theorem at the concrete response `[{}]`:
the validation-failure branch exits 1 without the verbatim display. -/
theorem review_errorpath_characterization_witness :
    pyFind "[{}]".data '[' ≠ -1 ∧
    (reviewParse "[{}]" = Outcome.unexpectedError ∧
      exitCode (reviewParse "[{}]") = 1 ∧
      surfacedVerbatim (reviewParse "[{}]") = false) :=
  ⟨by decide,
    (review_errorpath_characterization "[{}]" (by decide) (by decide) (by decide)).2
      [Json.obj []] rfl rfl⟩

end Preflight
